import Mathlib

/-!
Verification of the langgraphgo workflow engine against its specification.

This file gives a shallow embedding of the graph model and traversal engine
(graph.go), the resilience wrappers Retry, CircuitBreaker and RateLimiter
(retry.go), the listener broadcast mechanism (listeners.go), the streaming
listener (streaming source file) and the checkpoint subsystem (checkpointing
source file), together with theorems settling the frozen claims.

Modelling conventions:
- State is an opaque caller type, modelled by a type parameter.
- Go contexts are modelled as never cancelled, so the ctx.Done branches of the
  source are unreachable and omitted.
- Wall-clock time is an explicit natural number parameter wherever the code
  reads the clock; time.Since x becomes now - x.
- Go functions returning (value, error) pairs of an interface value and an
  error are modelled as Except, except where nil-ness of both components is
  the point of the claim, in which case the pair Option state x Option error
  is kept.
- The Invoke loop carries no bound in Go; it is modelled with explicit fuel,
  where a none result means the fuel ran out.
-/

namespace LangGraph

variable {σ ε : Type}

/-- Terminal sentinel node name, constant END of graph.go. -/
def END : String := "END"

/-- Static edge, struct Edge of graph.go. -/
structure Edge where
  From : String
  To : String
deriving DecidableEq

/-- Graph node: unique name plus state transformer, struct Node of graph.go.
The Go signature (Context, State) -> (State, Error) becomes a pure function
into Except since contexts are modelled as never cancelled. -/
structure Node (σ ε : Type) where
  name : String
  function : σ → Except ε σ

/-- Mutable graph definition, struct MessageGraph of graph.go.  Go maps are
modelled as functions into Option. -/
structure MessageGraph (σ ε : Type) where
  nodes : String → Option (Node σ ε)
  edges : List Edge
  conditionalEdges : String → Option (σ → String)
  entryPoint : String

/-- NewMessageGraph of graph.go: empty node map, no edges, no entry point. -/
def newMessageGraph : MessageGraph σ ε :=
  { nodes := fun _ => none
    edges := []
    conditionalEdges := fun _ => none
    entryPoint := "" }

/-- AddNode of graph.go: map assignment, last write wins. -/
def MessageGraph.addNode (g : MessageGraph σ ε) (name : String)
    (fn : σ → Except ε σ) : MessageGraph σ ε :=
  { g with nodes := fun n => if n = name then some ⟨name, fn⟩ else g.nodes n }

/-- AddEdge of graph.go: appends to the edge slice. -/
def MessageGraph.addEdge (g : MessageGraph σ ε) (src dst : String) :
    MessageGraph σ ε :=
  { g with edges := g.edges ++ [⟨src, dst⟩] }

/-- AddConditionalEdge of graph.go: map assignment keyed by the source node,
so re-registration overwrites and at most one entry exists per source. -/
def MessageGraph.addConditionalEdge (g : MessageGraph σ ε) (src : String)
    (cond : σ → String) : MessageGraph σ ε :=
  { g with conditionalEdges := fun n => if n = src then some cond else g.conditionalEdges n }

/-- SetEntryPoint of graph.go. -/
def MessageGraph.setEntryPoint (g : MessageGraph σ ε) (name : String) :
    MessageGraph σ ε :=
  { g with entryPoint := name }

/-- Errors produced by the engine itself, from graph.go: ErrNodeNotFound and
ErrNoOutgoingEdge wrapped with the node name, the empty-conditional-target
error, and the node-execution wrapper naming the failing node and its cause. -/
inductive ExecError (ε : Type) where
  | nodeNotFound (name : String)
  | noOutgoingEdge (name : String)
  | emptyConditionalTarget (name : String)
  | nodeExecution (name : String) (cause : ε)
deriving DecidableEq

/-- Compile of graph.go fails with ErrEntryPointNotSet when the entry point is
empty; a compiled Runnable is the graph itself plus a nil tracer, so it is
modelled as the graph. -/
def MessageGraph.compile (g : MessageGraph σ ε) : Option (MessageGraph σ ε) :=
  if g.entryPoint = "" then none else some g

/-- Return shape of InvokeWithConfig: Go returns the pair (state, error) of an
interface value and an error; every return site populates at most one side. -/
abbrev GoResult (σ ε : Type) := Option σ × Option (ExecError ε)

/-- The regular-edge scan of InvokeWithConfig, graph.go lines 230-237: the
first edge in slice order whose From field equals the current node wins. -/
def findFirstEdge : List Edge → String → Option String
  | [], _ => none
  | e :: rest, cur => if e.From = cur then some e.To else findFirstEdge rest cur

/-- Next-node resolution of InvokeWithConfig, graph.go lines 218-242:
a registered conditional edge takes precedence and its empty-string result is
an error; otherwise the first matching static edge is taken, and its absence
is ErrNoOutgoingEdge. -/
def resolveNext (g : MessageGraph σ ε) (cur : String) (s : σ) :
    Except (ExecError ε) String :=
  match g.conditionalEdges cur with
  | some cond =>
    if cond s = "" then .error (.emptyConditionalTarget cur)
    else .ok (cond s)
  | none =>
    match findFirstEdge g.edges cur with
    | some t => .ok t
    | none => .error (.noOutgoingEdge cur)

/-- The traversal loop of InvokeWithConfig, graph.go lines 161-253, with nil
config and nil tracer (the path taken by Invoke on a freshly compiled
runnable), modelled with fuel.  A none result means the fuel ran out; the Go
loop itself is unbounded. -/
def invokeFrom (g : MessageGraph σ ε) : Nat → String → σ → Option (GoResult σ ε)
  | 0, _, _ => none
  | fuel + 1, cur, s =>
    if cur = END then some (some s, none)
    else
      match g.nodes cur with
      | none => some (none, some (.nodeNotFound cur))
      | some nd =>
        match nd.function s with
        | .error e => some (none, some (.nodeExecution cur e))
        | .ok s' =>
          match resolveNext g cur s' with
          | .error e => some (none, some e)
          | .ok nxt => invokeFrom g fuel nxt s'

/-- Invoke of graph.go: run the traversal loop from the entry point. -/
def invoke (g : MessageGraph σ ε) (fuel : Nat) (s : σ) : Option (GoResult σ ε) :=
  invokeFrom g fuel g.entryPoint s

/-- Invoke terminates on a given initial state when some finite fuel suffices
for the loop to return. -/
def InvokeTerminates (g : MessageGraph σ ε) (s : σ) : Prop :=
  ∃ fuel r, invoke g fuel s = some r

/-- The edge scan succeeds when some edge leaves the current node. -/
theorem findFirstEdge_isSome {es : List Edge} {cur : String}
    (h : ∃ e ∈ es, e.From = cur) : (findFirstEdge es cur).isSome := by
  induction es with
  | nil => simp at h
  | cons e rest ih =>
    by_cases hf : e.From = cur
    · simp [findFirstEdge, hf]
    · rcases h with ⟨e', he', hef⟩
      rcases List.mem_cons.mp he' with rfl | hmem
      · exact absurd hef hf
      · simpa [findFirstEdge, hf] using ih ⟨e', hmem, hef⟩

/-- Whatever the edge scan returns comes from an edge of the list that leaves
the current node. -/
theorem findFirstEdge_spec {es : List Edge} {cur t : String}
    (h : findFirstEdge es cur = some t) : ∃ e ∈ es, e.From = cur ∧ e.To = t := by
  induction es with
  | nil => simp [findFirstEdge] at h
  | cons e rest ih =>
    by_cases hf : e.From = cur
    · simp only [findFirstEdge, if_pos hf, Option.some.injEq] at h
      exact ⟨e, List.mem_cons_self e rest, hf, h⟩
    · simp only [findFirstEdge, if_neg hf] at h
      obtain ⟨e', hm, hp⟩ := ih h
      exact ⟨e', List.mem_cons_of_mem _ hm, hp⟩

/-- Helper for C1: given a rank function that strictly drops along every
static edge and every possible conditional transition, a graph whose node
functions always succeed, whose conditional edges always return nonempty
names, and whose transition targets and entry point all exist (or are END),
finishes the traversal from any node below the fuel bound with a final state
and nil error. -/
theorem invokeFrom_terminates_of_rank (g : MessageGraph σ ε) (μ : String → Nat)
    (hok : ∀ n nd, g.nodes n = some nd → ∀ s, ∃ s', nd.function s = .ok s')
    (hout : ∀ n nd, g.nodes n = some nd →
        (g.conditionalEdges n).isSome ∨ ∃ e ∈ g.edges, e.From = n)
    (hcondNe : ∀ n cond, g.conditionalEdges n = some cond → ∀ s, cond s ≠ "")
    (hcondTgt : ∀ n cond, g.conditionalEdges n = some cond → ∀ s,
        cond s = END ∨ (g.nodes (cond s)).isSome)
    (hedgeTgt : ∀ e ∈ g.edges, e.To = END ∨ (g.nodes e.To).isSome)
    (hedgeDec : ∀ e ∈ g.edges, μ e.To < μ e.From)
    (hcondDec : ∀ n cond, g.conditionalEdges n = some cond → ∀ s, μ (cond s) < μ n) :
    ∀ fuel cur s, μ cur < fuel → (cur = END ∨ (g.nodes cur).isSome) →
      ∃ s', invokeFrom g fuel cur s = some (some s', none) := by
  intro fuel
  induction fuel with
  | zero => intro cur s h _; exact absurd h (Nat.not_lt_zero _)
  | succ n ih =>
    intro cur s hfuel hcur
    by_cases hend : cur = END
    · exact ⟨s, by simp [invokeFrom, hend]⟩
    · rcases hcur with h | h
      · exact absurd h hend
      obtain ⟨nd, hnd⟩ := Option.isSome_iff_exists.mp h
      obtain ⟨s', hs'⟩ := hok cur nd hnd s
      cases hc : g.conditionalEdges cur with
      | some cond =>
        have hne := hcondNe cur cond hc s'
        have hres : resolveNext g cur s' = .ok (cond s') := by
          simp [resolveNext, hc, hne]
        have hμ : μ (cond s') < n := by
          have := hcondDec cur cond hc s'
          omega
        obtain ⟨s'', hs''⟩ := ih (cond s') s' hμ (hcondTgt cur cond hc s')
        exact ⟨s'', by simp [invokeFrom, hend, hnd, hs', hres, hs'']⟩
      | none =>
        rcases hout cur nd hnd with hcs | hex
        · rw [hc] at hcs; simp at hcs
        · obtain ⟨t, ht⟩ := Option.isSome_iff_exists.mp (findFirstEdge_isSome hex)
          obtain ⟨e, hmem, hefrom, heto⟩ := findFirstEdge_spec ht
          have hres : resolveNext g cur s' = .ok t := by
            simp [resolveNext, hc, ht]
          have hμ : μ t < n := by
            have := hedgeDec e hmem
            rw [hefrom, heto] at this
            omega
          have htgt : t = END ∨ (g.nodes t).isSome := by
            have := hedgeTgt e hmem
            rwa [heto] at this
          obtain ⟨s'', hs''⟩ := ih t s' hμ htgt
          exact ⟨s'', by simp [invokeFrom, hend, hnd, hs', hres, hs'']⟩

/-- C1 (amended): for a graph whose entry point is set, in which every node in
the node map has a conditional edge or at least one matching static edge,
every static-edge target, conditional-edge target and the entry point is END
or an existing node, every node function always succeeds, every conditional
edge always returns a nonempty name, and some rank function strictly
decreases along every static edge and every possible conditional transition
(so the transition graph is acyclic), Invoke terminates and returns the final
threaded state with nil error. -/
theorem invoke_terminates_on_wellformed_acyclic (g : MessageGraph σ ε)
    (μ : String → Nat) (s : σ)
    (hset : g.entryPoint ≠ "")
    (hentry : g.entryPoint = END ∨ (g.nodes g.entryPoint).isSome)
    (hok : ∀ n nd, g.nodes n = some nd → ∀ st, ∃ st', nd.function st = .ok st')
    (hout : ∀ n nd, g.nodes n = some nd →
        (g.conditionalEdges n).isSome ∨ ∃ e ∈ g.edges, e.From = n)
    (hcondNe : ∀ n cond, g.conditionalEdges n = some cond → ∀ st, cond st ≠ "")
    (hcondTgt : ∀ n cond, g.conditionalEdges n = some cond → ∀ st,
        cond st = END ∨ (g.nodes (cond st)).isSome)
    (hedgeTgt : ∀ e ∈ g.edges, e.To = END ∨ (g.nodes e.To).isSome)
    (hedgeDec : ∀ e ∈ g.edges, μ e.To < μ e.From)
    (hcondDec : ∀ n cond, g.conditionalEdges n = some cond → ∀ st, μ (cond st) < μ n) :
    ∃ s', invoke g (μ g.entryPoint + 1) s = some (some s', none) :=
  invokeFrom_terminates_of_rank g μ hok hout hcondNe hcondTgt hedgeTgt hedgeDec
    hcondDec (μ g.entryPoint + 1) g.entryPoint s (Nat.lt_succ_self _) hentry

/-- Two-node witness fixture: a single node A followed by END. -/
def lineGraph : MessageGraph Nat String :=
  { nodes := fun n => if n = "A" then some ⟨"A", fun st => .ok (st + 1)⟩ else none
    edges := [⟨"A", "END"⟩]
    conditionalEdges := fun _ => none
    entryPoint := "A" }

/-- Rank function for the witness fixture. -/
def lineRank : String → Nat := fun n => if n = "A" then 1 else 0

/-- Witness for C1 (amended): the hypotheses hold for the A-to-END line graph
and Invoke with fuel two finishes with nil error. -/
theorem invoke_terminates_on_wellformed_acyclic_witness :
    ∃ s', invoke lineGraph (lineRank lineGraph.entryPoint + 1) 5 = some (some s', none) := by
  refine invoke_terminates_on_wellformed_acyclic lineGraph lineRank 5
    (by decide) (Or.inr (by decide)) ?_ ?_ ?_ ?_ ?_ ?_ ?_
  · intro n nd h st
    by_cases hn : n = "A"
    · subst hn
      simp only [lineGraph, if_true, eq_self_iff_true, Option.some.injEq] at h
      exact ⟨st + 1, by rw [← h]⟩
    · simp [lineGraph, hn] at h
  · intro n nd h
    by_cases hn : n = "A"
    · subst hn
      exact Or.inr ⟨⟨"A", "END"⟩, by simp [lineGraph], rfl⟩
    · simp [lineGraph, hn] at h
  · intro n cond h
    simp [lineGraph] at h
  · intro n cond h
    simp [lineGraph] at h
  · intro e he
    simp only [lineGraph, List.mem_singleton] at he
    subst he
    exact Or.inl rfl
  · intro e he
    simp only [lineGraph, List.mem_singleton] at he
    subst he
    simp [lineRank, END]
  · intro n cond h
    simp [lineGraph] at h

/-- Counterexample fixture for C1: node A loops back to itself with a static
edge, so every node in the graph has a matching static edge, the node function
always succeeds, yet the traversal never reaches END. -/
def cycleGraph : MessageGraph Nat String :=
  { nodes := fun n => if n = "A" then some ⟨"A", fun st => .ok st⟩ else none
    edges := [⟨"A", "A"⟩]
    conditionalEdges := fun _ => none
    entryPoint := "A" }

/-- On the self-loop graph no amount of fuel finishes the traversal. -/
theorem cycleGraph_no_fuel : ∀ fuel (s : Nat), invokeFrom cycleGraph fuel "A" s = none := by
  intro fuel
  induction fuel with
  | zero => intro s; rfl
  | succ n ih =>
    intro s
    have hres : resolveNext cycleGraph "A" s = .ok "A" := by
      simp [resolveNext, cycleGraph, findFirstEdge]
    simp only [invokeFrom]
    rw [if_neg (by decide : ¬ ("A" : String) = END)]
    simpa [cycleGraph, hres] using ih s

/-- C1 counterexample: the self-loop graph has its entry point set and every
reachable non-END node (only A) has a matching static edge, yet Invoke never
terminates, refuting the claim as stated. -/
theorem invoke_cycle_never_terminates : ¬ InvokeTerminates cycleGraph 0 := by
  rintro ⟨fuel, r, h⟩
  have : invokeFrom cycleGraph fuel "A" 0 = some r := h
  rw [cycleGraph_no_fuel] at this
  cases this

/-- C2: the engine returns exactly one of two shapes, a final state with nil
error or a nil state with an error; in particular when the current node
function fails, the engine returns nil state plus the execution error wrapping
the node name and the cause, never the partially updated state. -/
theorem invoke_result_shape (g : MessageGraph σ ε) :
    (∀ fuel cur s r, invokeFrom g fuel cur s = some r →
        (∃ st, r = (some st, none)) ∨ (∃ e, r = (none, some e)))
    ∧ (∀ fuel cur s nd e, cur ≠ END → g.nodes cur = some nd →
        nd.function s = .error e →
        invokeFrom g (fuel + 1) cur s = some (none, some (.nodeExecution cur e))) := by
  constructor
  · intro fuel
    induction fuel with
    | zero => intro cur s r h; simp [invokeFrom] at h
    | succ n ih =>
      intro cur s r h
      simp only [invokeFrom] at h
      split at h
      · exact Or.inl ⟨s, (Option.some.inj h).symm⟩
      · split at h
        · exact Or.inr ⟨_, (Option.some.inj h).symm⟩
        · split at h
          · exact Or.inr ⟨_, (Option.some.inj h).symm⟩
          · split at h
            · exact Or.inr ⟨_, (Option.some.inj h).symm⟩
            · exact ih _ _ r h
  · intro fuel cur s nd e hend hnd hfn
    simp [invokeFrom, hend, hnd, hfn]

/-- Witness fixture for C2: node A succeeds into END, node B always fails. -/
def shapeGraph : MessageGraph Nat String :=
  { nodes := fun n =>
      if n = "A" then some ⟨"A", fun st => .ok (st + 1)⟩
      else if n = "B" then some ⟨"B", fun _ => .error "boom"⟩
      else none
    edges := [⟨"A", "END"⟩]
    conditionalEdges := fun _ => none
    entryPoint := "A" }

/-- Witness for C2 at a concrete graph: a successful run has the first shape
and a failing node yields nil state plus the wrapping error. -/
theorem invoke_result_shape_witness :
    ((∃ st, ((some 1, none) : GoResult Nat String) = (some st, none)) ∨
      (∃ e, ((some 1, none) : GoResult Nat String) = (none, some e)))
    ∧ invokeFrom shapeGraph 1 "B" 0 = some (none, some (.nodeExecution "B" "boom")) :=
  ⟨(invoke_result_shape shapeGraph).1 2 "A" 0 (some 1, none) (by decide),
   (invoke_result_shape shapeGraph).2 0 "B" 0 ⟨"B", fun _ => .error "boom"⟩ "boom"
     (by decide) (by simp [shapeGraph]) rfl⟩

/-- C3: next-node resolution is conditional-edge-first: a registered
conditional edge is used and its empty result is the empty-target error;
without one the first matching static edge is used and its absence is the
no-outgoing-edge error; the first matching edge wins even when later matches
exist; and conditional-edge re-registration overwrites, the map keeping at
most one entry per source node. -/
theorem conditional_edge_resolution (g : MessageGraph σ ε) (cur : String) (s : σ) :
    (∀ cond, g.conditionalEdges cur = some cond → cond s ≠ "" →
        resolveNext g cur s = .ok (cond s))
    ∧ (∀ cond, g.conditionalEdges cur = some cond → cond s = "" →
        resolveNext g cur s = .error (.emptyConditionalTarget cur))
    ∧ (g.conditionalEdges cur = none → ∀ t, findFirstEdge g.edges cur = some t →
        resolveNext g cur s = .ok t)
    ∧ (g.conditionalEdges cur = none → findFirstEdge g.edges cur = none →
        resolveNext g cur s = .error (.noOutgoingEdge cur))
    ∧ (∀ (e : Edge) (rest : List Edge), e.From = cur →
        findFirstEdge (e :: rest) cur = some e.To)
    ∧ (∀ (c1 c2 : σ → String),
        ((g.addConditionalEdge cur c1).addConditionalEdge cur c2).conditionalEdges cur
          = some c2) := by
  refine ⟨?_, ?_, ?_, ?_, ?_, ?_⟩
  · intro cond hc hne; simp [resolveNext, hc, hne]
  · intro cond hc he; simp [resolveNext, hc, he]
  · intro hc t ht; simp [resolveNext, hc, ht]
  · intro hc ht; simp [resolveNext, hc, ht]
  · intro e rest he; simp [findFirstEdge, he]
  · intro c1 c2; simp [MessageGraph.addConditionalEdge]

/-- Routing function for the C3 witness fixture. -/
def routeCond : Nat → String := fun st => if st = 0 then "" else "B"

/-- Witness fixture for C3: node A carries a conditional edge and also a
static edge, node B carries only a static edge, node Z carries nothing. -/
def resolutionGraph : MessageGraph Nat String :=
  { nodes := fun _ => none
    edges := [⟨"A", "C"⟩, ⟨"B", "D"⟩]
    conditionalEdges := fun n => if n = "A" then some routeCond else none
    entryPoint := "A" }

/-- Witness for C3 at concrete inputs: the conditional edge wins over the
static edge from A, its empty result errors, B falls back to its first static
edge, Z has no outgoing edge, the head edge wins the scan, and re-registering
a conditional edge overwrites the previous one. -/
theorem conditional_edge_resolution_witness :
    resolveNext resolutionGraph "A" 1 = .ok "B"
    ∧ resolveNext resolutionGraph "A" 0 = .error (.emptyConditionalTarget "A")
    ∧ resolveNext resolutionGraph "B" 7 = .ok "D"
    ∧ resolveNext resolutionGraph "Z" 7 = .error (.noOutgoingEdge "Z")
    ∧ findFirstEdge [⟨"A", "C"⟩, ⟨"A", "X"⟩] "A" = some "C"
    ∧ ((resolutionGraph.addConditionalEdge "B" (fun _ => "X")).addConditionalEdge "B"
        (fun _ => "Y")).conditionalEdges "B" = some (fun _ => "Y") :=
  ⟨(conditional_edge_resolution resolutionGraph "A" 1).1 routeCond rfl (by decide),
   (conditional_edge_resolution resolutionGraph "A" 0).2.1 routeCond rfl (by decide),
   (conditional_edge_resolution resolutionGraph "B" 7).2.2.1 rfl "D" (by decide),
   (conditional_edge_resolution resolutionGraph "Z" 7).2.2.2.1 rfl (by decide),
   (conditional_edge_resolution resolutionGraph "A" 1).2.2.2.2.1 ⟨"A", "C"⟩ [⟨"A", "X"⟩] rfl,
   (conditional_edge_resolution resolutionGraph "B" 7).2.2.2.2.2 (fun _ => "X") (fun _ => "Y")⟩

/-! ## Retry wrapper, retry.go

The delay fields InitialDelay, MaxDelay and BackoffFactor only influence how
long the loop sleeps between attempts, never which attempt runs or what is
returned, and the context is modelled as never cancelled, so they are omitted
from the model.  The wrapped node function is called repeatedly with the same
state; its effectful outcomes are modelled as a sequence indexed by the call
number. -/

/-- RetryConfig of retry.go restricted to the fields that decide control
flow: MaxAttempts and the optional RetryableErrors classifier. -/
structure RetryConfig (ε : Type) where
  maxAttempts : Nat
  retryableErrors : Option (ε → Bool)

/-- Errors produced by RetryNode.Execute: the non-retryable wrapper and the
max-retries-exceeded wrapper, both naming the node; the exhausted error wraps
the last error, which is nil when MaxAttempts is zero. -/
inductive RetryError (ε : Type) where
  | nonRetryable (name : String) (cause : ε)
  | exhausted (maxAttempts : Nat) (name : String) (cause : Option ε)
deriving DecidableEq

/-- The attempt loop of RetryNode.Execute, retry.go lines 52-95: remaining
counts the attempts still allowed, calls counts invocations of the wrapped
function so far, and lastErr is the most recent failure.  Success returns
immediately; a failure classified non-retryable aborts; once no attempts
remain the exhausted error wraps the last failure. -/
def retryFrom (cfg : RetryConfig ε) (name : String) (f : Nat → Except ε σ) :
    Nat → Nat → Option ε → Except (RetryError ε) σ × Nat
  | 0, calls, lastErr => (.error (.exhausted cfg.maxAttempts name lastErr), calls)
  | remaining + 1, calls, _ =>
    match f calls with
    | .ok v => (.ok v, calls + 1)
    | .error e =>
      match cfg.retryableErrors with
      | some p =>
        if p e then retryFrom cfg name f remaining (calls + 1) (some e)
        else (.error (.nonRetryable name e), calls + 1)
      | none => retryFrom cfg name f remaining (calls + 1) (some e)

/-- RetryNode.Execute: run the attempt loop with MaxAttempts attempts and no
calls made yet; also returns how many times the wrapped function ran. -/
def retryExecute (cfg : RetryConfig ε) (name : String) (f : Nat → Except ε σ) :
    Except (RetryError ε) σ × Nat :=
  retryFrom cfg name f cfg.maxAttempts 0 none

/-- Helper for C4: a run of k retryable failures followed by a success
consumes exactly k+1 calls, for any call offset. -/
theorem retryFrom_success (cfg : RetryConfig ε) (name : String)
    (f : Nat → Except ε σ) (p : ε → Bool) (hp : cfg.retryableErrors = some p) :
    ∀ (k : Nat) (remaining calls : Nat) (lastErr : Option ε) (v : σ),
      k < remaining →
      (∀ i < k, ∃ e, f (calls + i) = .error e ∧ p e = true) →
      f (calls + k) = .ok v →
      retryFrom cfg name f remaining calls lastErr = (.ok v, calls + k + 1) := by
  intro k
  induction k with
  | zero =>
    intro remaining calls lastErr v hk _ hok
    match remaining, hk with
    | remaining + 1, _ =>
      simp only [retryFrom]
      rw [show calls + 0 = calls from rfl] at hok
      rw [hok]
  | succ k ih =>
    intro remaining calls lastErr v hk herr hok
    match remaining, hk with
    | remaining + 1, hk =>
      obtain ⟨e, he, hpe⟩ := herr 0 (Nat.succ_pos k)
      simp only [retryFrom]
      rw [show calls + 0 = calls from rfl] at he
      rw [he, hp]
      simp only [hpe, if_true]
      have herr' : ∀ i < k, ∃ e, f (calls + 1 + i) = .error e ∧ p e = true := by
        intro i hi
        obtain ⟨e', he', hpe'⟩ := herr (i + 1) (Nat.succ_lt_succ hi)
        exact ⟨e', by rw [show calls + 1 + i = calls + (i + 1) by omega]; exact he', hpe'⟩
      have hok' : f (calls + 1 + k) = .ok v := by
        rw [show calls + 1 + k = calls + (k + 1) by omega]; exact hok
      have := ih remaining (calls + 1) (some e) v (Nat.lt_of_succ_lt_succ hk) herr' hok'
      rw [this]
      congr 1
      omega

/-- Helper for C4: when every call fails retryably, the loop uses up all
remaining attempts and wraps the error of the last call made. -/
theorem retryFrom_exhausts (cfg : RetryConfig ε) (name : String)
    (f : Nat → Except ε σ) (p : ε → Bool) (hp : cfg.retryableErrors = some p)
    (err : Nat → ε) (hf : ∀ i, f i = .error (err i) ∧ p (err i) = true) :
    ∀ (r calls : Nat) (lastErr : Option ε),
      retryFrom cfg name f (r + 1) calls lastErr =
        (.error (.exhausted cfg.maxAttempts name (some (err (calls + r)))),
         calls + r + 1) := by
  intro r
  induction r with
  | zero =>
    intro calls lastErr
    obtain ⟨he, hpe⟩ := hf calls
    simp [retryFrom, he, hp, hpe]
  | succ r ih =>
    intro calls lastErr
    obtain ⟨he, hpe⟩ := hf calls
    rw [retryFrom]
    simp only [he, hp, hpe, if_true]
    rw [ih (calls + 1) (some (err calls))]
    have h1 : calls + 1 + r = calls + (r + 1) := by omega
    rw [h1]

/-- C4: with a registered retryable-error classifier, the Retry wrapper
invokes the wrapped function exactly k+1 times and returns its success when k
retryable failures (k below MaxAttempts) precede a success; exactly
MaxAttempts times, returning the exhausted error wrapping the last failure,
when every call fails retryably; and exactly once, returning the
non-retryable error, when the first failure is classified non-retryable. -/
theorem retry_attempt_counts (cfg : RetryConfig ε) (name : String)
    (f : Nat → Except ε σ) (p : ε → Bool) (hp : cfg.retryableErrors = some p) :
    (∀ k v, k < cfg.maxAttempts →
        (∀ i < k, ∃ e, f i = .error e ∧ p e = true) →
        f k = .ok v →
        retryExecute cfg name f = (.ok v, k + 1))
    ∧ (∀ err : Nat → ε, 1 ≤ cfg.maxAttempts →
        (∀ i, f i = .error (err i) ∧ p (err i) = true) →
        retryExecute cfg name f =
          (.error (.exhausted cfg.maxAttempts name (some (err (cfg.maxAttempts - 1)))),
           cfg.maxAttempts))
    ∧ (∀ e, 1 ≤ cfg.maxAttempts → f 0 = .error e → p e = false →
        retryExecute cfg name f = (.error (.nonRetryable name e), 1)) := by
  refine ⟨?_, ?_, ?_⟩
  · intro k v hk herr hok
    have := retryFrom_success cfg name f p hp k cfg.maxAttempts 0 none v hk
      (by simpa using herr) (by simpa using hok)
    simpa [retryExecute] using this
  · intro err hmax hf
    match hm : cfg.maxAttempts, hmax with
    | m + 1, _ =>
      have hrun := retryFrom_exhausts cfg name f p hp err hf m 0 none
      have hgoal : retryExecute cfg name f = retryFrom cfg name f (m + 1) 0 none := by
        rw [retryExecute, hm]
      rw [hgoal, hrun, hm]
      simp
  · intro e hmax he hpe
    match hm : cfg.maxAttempts, hmax with
    | m + 1, _ =>
      simp [retryExecute, retryFrom, hm, he, hp, hpe]

/-- Witness fixture for C4: three attempts, only the transient error retries. -/
def retryCfg : RetryConfig String := ⟨3, some (fun e => e == "transient")⟩

/-- Witness for C4 at MaxAttempts three: two transient failures then success
gives three calls; always failing gives three calls and the exhausted error;
a first non-retryable failure gives one call. -/
theorem retry_attempt_counts_witness :
    retryExecute retryCfg "work"
        (fun i => if i < 2 then .error "transient" else .ok (42 : Nat)) = (.ok 42, 3)
    ∧ retryExecute retryCfg "work" (fun _ => (.error "transient" : Except String Nat)) =
        (.error (.exhausted 3 "work" (some "transient")), 3)
    ∧ retryExecute retryCfg "work" (fun _ => (.error "fatal" : Except String Nat)) =
        (.error (.nonRetryable "work" "fatal"), 1) :=
  ⟨(retry_attempt_counts retryCfg "work" _ _ rfl).1 2 42 (by decide)
      (fun i hi => ⟨"transient", by simp [hi], rfl⟩) rfl,
   (retry_attempt_counts retryCfg "work" _ _ rfl).2.1 (fun _ => "transient") (by decide)
      (fun _ => ⟨rfl, rfl⟩),
   (retry_attempt_counts retryCfg "work" _ _ rfl).2.2 "fatal" (by decide) rfl rfl⟩

/-! ## CircuitBreaker, retry.go

Wall-clock time is an explicit natural number: time.Now() becomes the now
parameter of Execute, and time.Since(lastFailureTime) > Timeout becomes
now - lastFailureTime > timeout.  The wrapped function is supplied as the
outcome it would produce if invoked, plus a returned flag recording whether
it was invoked. -/

/-- The three circuit states of retry.go. -/
inductive CBState where
  | closed
  | opened
  | halfOpen
deriving DecidableEq

/-- CircuitBreakerConfig of retry.go. -/
structure CBConfig where
  failureThreshold : Nat
  successThreshold : Nat
  timeout : Nat
  halfOpenMaxCalls : Nat
deriving DecidableEq

/-- Mutable CircuitBreaker record of retry.go, without the wrapped node,
whose name is passed separately. -/
structure CircuitBreaker where
  cfg : CBConfig
  state : CBState
  failures : Nat
  successes : Nat
  lastFailureTime : Nat
  halfOpenCalls : Nat
deriving DecidableEq

/-- Errors produced by CircuitBreaker.Execute, each naming the node. -/
inductive CBError (ε : Type) where
  | circuitOpen (name : String)
  | halfOpenLimit (name : String)
  | executionError (name : String) (cause : ε)
deriving DecidableEq

/-- NewCircuitBreaker of retry.go: closed state, zero counters. -/
def newCircuitBreaker (cfg : CBConfig) : CircuitBreaker :=
  ⟨cfg, .closed, 0, 0, 0, 0⟩

/-- Outcome of the admission switch at the top of CircuitBreaker.Execute. -/
inductive CBAdmit (ε : Type) where
  | reject (cb : CircuitBreaker) (e : CBError ε)
  | proceed (cb : CircuitBreaker)

/-- The state switch of CircuitBreaker.Execute, retry.go lines 206-225:
Closed proceeds; Open proceeds into HalfOpen (probe counter reset) once the
timeout has elapsed since the last failure, otherwise rejects with the
circuit-open error; HalfOpen rejects back to Open once the probe quota is
used up, otherwise proceeds counting the probe. -/
def cbAdmit (name : String) (cb : CircuitBreaker) (now : Nat) : CBAdmit ε :=
  match cb.state with
  | .closed => .proceed cb
  | .opened =>
    if now - cb.lastFailureTime > cb.cfg.timeout then
      .proceed { cb with state := .halfOpen, halfOpenCalls := 0 }
    else .reject cb (.circuitOpen name)
  | .halfOpen =>
    if cb.halfOpenCalls ≥ cb.cfg.halfOpenMaxCalls then
      .reject { cb with state := .opened } (.halfOpenLimit name)
    else .proceed { cb with halfOpenCalls := cb.halfOpenCalls + 1 }

/-- The post-execution bookkeeping of CircuitBreaker.Execute, retry.go lines
228-251: a failure bumps the failure streak, records the failure time and
opens the circuit at the threshold; a success bumps the success streak and
closes the circuit from HalfOpen at the success threshold. -/
def cbSettle (cb : CircuitBreaker) (now : Nat) (name : String)
    (res : Except ε σ) : CircuitBreaker × Except (CBError ε) σ × Bool :=
  match res with
  | .error e =>
    ({ cb with
        failures := cb.failures + 1
        successes := 0
        lastFailureTime := now
        state := if cb.failures + 1 ≥ cb.cfg.failureThreshold then .opened else cb.state },
     .error (.executionError name e), true)
  | .ok v =>
    ({ cb with
        successes := cb.successes + 1
        failures := 0
        state :=
          if cb.state = .halfOpen ∧ cb.successes + 1 ≥ cb.cfg.successThreshold then .closed
          else cb.state },
     .ok v, true)

/-- CircuitBreaker.Execute: admission switch, then, when admitted, the
wrapped function runs (res is its outcome) and the bookkeeping applies; the
Bool records whether the wrapped function was invoked. -/
def cbExecute (cb : CircuitBreaker) (now : Nat) (name : String)
    (res : Except ε σ) : CircuitBreaker × Except (CBError ε) σ × Bool :=
  match cbAdmit name cb now with
  | .reject cb' e => (cb', .error e, false)
  | .proceed cb' => cbSettle cb' now name res

/-- C5: with failure threshold two, starting Closed, a first failure keeps
the circuit Closed, a second consecutive failure opens it recording its time;
a call before the open timeout has elapsed since that failure is rejected
with the circuit-open error, leaving the breaker untouched and the wrapped
function not invoked; a call after the open timeout admits in HalfOpen with
the probe counter reset and invokes the wrapped function. -/
theorem circuit_breaker_threshold_two (cfg : CBConfig)
    (hft : cfg.failureThreshold = 2) (name : String) (e1 e2 : ε)
    (t1 t2 : Nat) :
    cbExecute (σ := σ) (newCircuitBreaker cfg) t1 name (.error e1) =
      (⟨cfg, .closed, 1, 0, t1, 0⟩, .error (.executionError name e1), true)
    ∧ cbExecute (σ := σ) ⟨cfg, .closed, 1, 0, t1, 0⟩ t2 name (.error e2) =
      (⟨cfg, .opened, 2, 0, t2, 0⟩, .error (.executionError name e2), true)
    ∧ (∀ (r3 : Except ε σ) (t3 : Nat), t3 - t2 ≤ cfg.timeout →
        cbExecute ⟨cfg, .opened, 2, 0, t2, 0⟩ t3 name r3 =
          (⟨cfg, .opened, 2, 0, t2, 0⟩, .error (.circuitOpen name), false))
    ∧ (∀ (r4 : Except ε σ) (t4 : Nat), t4 - t2 > cfg.timeout →
        (cbAdmit name ⟨cfg, .opened, 2, 0, t2, 0⟩ t4 : CBAdmit ε) =
          .proceed ⟨cfg, .halfOpen, 2, 0, t2, 0⟩
        ∧ (cbExecute ⟨cfg, .opened, 2, 0, t2, 0⟩ t4 name r4).2.2 = true) := by
  refine ⟨?_, ?_, ?_, ?_⟩
  · simp [cbExecute, cbAdmit, cbSettle, newCircuitBreaker, hft]
  · simp [cbExecute, cbAdmit, cbSettle, hft]
  · intro r3 t3 h3
    have : ¬ t3 - t2 > cfg.timeout := by omega
    simp [cbExecute, cbAdmit, this]
  · intro r4 t4 h4
    constructor
    · simp [cbAdmit, h4]
    · cases r4 with
      | ok v => simp [cbExecute, cbAdmit, cbSettle, h4]
      | error e => simp [cbExecute, cbAdmit, cbSettle, h4]

/-- Witness for C5 at concrete times and errors: threshold two, timeout ten,
failures at times three and five, a rejected call at time nine and an
admitted probe at time sixteen. -/
theorem circuit_breaker_threshold_two_witness :
    cbExecute (σ := Nat) (newCircuitBreaker ⟨2, 1, 10, 1⟩) 3 "svc" (.error "e1") =
      (⟨⟨2, 1, 10, 1⟩, .closed, 1, 0, 3, 0⟩, .error (.executionError "svc" "e1"), true)
    ∧ cbExecute (σ := Nat) (ε := String) ⟨⟨2, 1, 10, 1⟩, .opened, 2, 0, 5, 0⟩ 9 "svc"
        (.ok 7) =
      (⟨⟨2, 1, 10, 1⟩, .opened, 2, 0, 5, 0⟩, .error (.circuitOpen "svc"), false)
    ∧ (cbAdmit "svc" ⟨⟨2, 1, 10, 1⟩, .opened, 2, 0, 5, 0⟩ 16 : CBAdmit String) =
        .proceed ⟨⟨2, 1, 10, 1⟩, .halfOpen, 2, 0, 5, 0⟩
    ∧ (cbExecute (σ := Nat) (ε := String) ⟨⟨2, 1, 10, 1⟩, .opened, 2, 0, 5, 0⟩ 16 "svc"
        (.ok 7)).2.2 = true :=
  ⟨(circuit_breaker_threshold_two ⟨2, 1, 10, 1⟩ rfl "svc" "e1" "e2" 3 5).1,
   (circuit_breaker_threshold_two ⟨2, 1, 10, 1⟩ rfl "svc" "e1" "e2" 3 5).2.2.1
     (.ok 7) 9 (by decide),
   ((circuit_breaker_threshold_two ⟨2, 1, 10, 1⟩ rfl "svc" "e1" "e2" 3 5).2.2.2
     (.ok 7) 16 (by decide)).1,
   ((circuit_breaker_threshold_two ⟨2, 1, 10, 1⟩ rfl "svc" "e1" "e2" 3 5).2.2.2
     (.ok 7) 16 (by decide)).2⟩

/-! ## RateLimiter, retry.go

Sliding window of call timestamps; time is an explicit natural number. -/

/-- RateLimiter record of retry.go, without the wrapped node. -/
structure RateLimiter where
  maxCalls : Nat
  window : Nat
  calls : List Nat
deriving DecidableEq

/-- Errors surfaced by RateLimiter.Execute: the rate-limit rejection naming
the node and the suggested wait, or the wrapped node error passed through. -/
inductive RLError (ε : Type) where
  | rateLimited (name : String) (wait : Nat)
  | nodeError (cause : ε)
deriving DecidableEq

/-- NewRateLimiter of retry.go: empty timestamp list. -/
def newRateLimiter (maxCalls window : Nat) : RateLimiter :=
  ⟨maxCalls, window, []⟩

/-- RateLimiter.Execute, retry.go lines 287-312: purge timestamps outside
the window, reject with the suggested wait computed from the oldest retained
timestamp when the limit is reached, otherwise record the call and run the
wrapped function (res is its outcome); the Bool records whether the wrapped
function was invoked. -/
def rlExecute (rl : RateLimiter) (now : Nat) (name : String)
    (res : Except ε σ) : RateLimiter × Except (RLError ε) σ × Bool :=
  let valid := rl.calls.filter (fun t => now - t < rl.window)
  if valid.length ≥ rl.maxCalls then
    ({ rl with calls := valid },
     .error (.rateLimited name (rl.window - (now - valid.headD 0))), false)
  else
    ({ rl with calls := valid ++ [now] },
     match res with
     | .ok v => .ok v
     | .error e => .error (.nodeError e), true)

/-- C6: with maxCalls two, the first two calls inside the window invoke the
wrapped function and are recorded; a third call while both timestamps are
inside the window is rejected with the rate-limited error carrying the
suggested wait, without invoking the wrapped function and without recording;
and a call at least one full window after the first recorded call invokes the
wrapped function again, because the first timestamp is purged first. -/
theorem rate_limiter_sliding_window (w t1 t2 t3 t4 : Nat) (name : String)
    (h21 : t2 - t1 < w) (h31 : t3 - t1 < w) (h32 : t3 - t2 < w)
    (h41 : ¬ t4 - t1 < w) :
    (∀ r1 : Except ε σ, (rlExecute (newRateLimiter 2 w) t1 name r1).1 = ⟨2, w, [t1]⟩
        ∧ (rlExecute (newRateLimiter 2 w) t1 name r1).2.2 = true)
    ∧ (∀ r2 : Except ε σ, (rlExecute ⟨2, w, [t1]⟩ t2 name r2).1 = ⟨2, w, [t1, t2]⟩
        ∧ (rlExecute ⟨2, w, [t1]⟩ t2 name r2).2.2 = true)
    ∧ (∀ r3 : Except ε σ, rlExecute ⟨2, w, [t1, t2]⟩ t3 name r3 =
        (⟨2, w, [t1, t2]⟩, .error (.rateLimited name (w - (t3 - t1))), false))
    ∧ (∀ r4 : Except ε σ, (rlExecute ⟨2, w, [t1, t2]⟩ t4 name r4).2.2 = true) := by
  refine ⟨?_, ?_, ?_, ?_⟩
  · intro r1
    constructor <;> simp [rlExecute, newRateLimiter]
  · intro r2
    constructor <;> simp [rlExecute, h21]
  · intro r3
    simp [rlExecute, h31, h32]
  · intro r4
    by_cases h42 : t4 - t2 < w
    · simp [rlExecute, h41, h42]
    · simp [rlExecute, h41, h42]

/-- Witness for C6: window one hundred, calls at times zero, ten, twenty and
one hundred. -/
theorem rate_limiter_sliding_window_witness :
    (rlExecute (ε := String) (newRateLimiter 2 100) 0 "svc" (.ok (5 : Nat))).1 =
        ⟨2, 100, [0]⟩
    ∧ (rlExecute (ε := String) (⟨2, 100, [0]⟩ : RateLimiter) 10 "svc"
        (.ok (5 : Nat))).1 = ⟨2, 100, [0, 10]⟩
    ∧ rlExecute (ε := String) (⟨2, 100, [0, 10]⟩ : RateLimiter) 20 "svc" (.ok (5 : Nat)) =
        (⟨2, 100, [0, 10]⟩, .error (.rateLimited "svc" 80), false)
    ∧ (rlExecute (ε := String) (⟨2, 100, [0, 10]⟩ : RateLimiter) 100 "svc"
        (.ok (5 : Nat))).2.2 = true :=
  ⟨((rate_limiter_sliding_window 100 0 10 20 100 "svc" (by decide) (by decide)
      (by decide) (by decide)).1 (.ok 5)).1,
   ((rate_limiter_sliding_window 100 0 10 20 100 "svc" (by decide) (by decide)
      (by decide) (by decide)).2.1 (.ok 5)).1,
   (rate_limiter_sliding_window 100 0 10 20 100 "svc" (by decide) (by decide)
      (by decide) (by decide)).2.2.1 (.ok 5),
   (rate_limiter_sliding_window 100 0 10 20 100 "svc" (by decide) (by decide)
      (by decide) (by decide)).2.2.2 (.ok 5)⟩

/-! ## Listener broadcast, listeners.go

NotifyListeners dispatches one event to every listener on its own goroutine
with a per-listener recover, then joins the whole batch before returning, so
a batch is modelled as the list of deliveries it performs; Execute emits the
start batch, runs the inner function, then emits exactly one terminal batch.
A listener that panics is modelled by its handler returning none; the
deferred recover of the source turns that into a normal completion of the
delivery goroutine. -/

/-- NodeEvent values of listeners.go. -/
inductive NEvent where
  | start
  | progress
  | complete
  | error
deriving DecidableEq

/-- Payload of one listener notification batch: the arguments NotifyListeners
passes to every listener. -/
structure Emitted (σ ε : Type) where
  event : NEvent
  nodeName : String
  state : σ
  err : Option ε
deriving DecidableEq

/-- An observer implementing OnNodeEvent; a none result models a panic inside
the listener body. -/
structure Obs (σ ε : Type) where
  handle : NEvent → σ → Option ε → Option Unit

/-- One completed delivery of a notification to one listener; panicked
records whether the per-goroutine recover fired. -/
structure Delivery (σ ε : Type) where
  event : NEvent
  nodeName : String
  state : σ
  err : Option ε
  panicked : Bool
deriving DecidableEq

/-- ListenableNode of listeners.go: a node plus its listener list. -/
structure LNode (σ ε : Type) where
  name : String
  function : σ → Except ε σ
  listeners : List (Obs σ ε)

/-- NotifyListeners, listeners.go lines 103-132: every listener in the
snapshot receives the event; the deferred recover makes every delivery
complete, marking those whose body panicked. -/
def notifyListeners (ls : List (Obs σ ε)) (em : Emitted σ ε) :
    List (Delivery σ ε) :=
  ls.map fun l =>
    ⟨em.event, em.nodeName, em.state, em.err, (l.handle em.event em.state em.err).isNone⟩

/-- The batch payloads ListenableNode.Execute emits, listeners.go lines
135-150: a start batch with the incoming state, then a complete batch with
the result on success or an error batch with the incoming state and the
error on failure. -/
def lnodeEmit (nd : LNode σ ε) (s : σ) : List (Emitted σ ε) :=
  match nd.function s with
  | .ok r => [⟨.start, nd.name, s, none⟩, ⟨.complete, nd.name, r, none⟩]
  | .error e => [⟨.start, nd.name, s, none⟩, ⟨.error, nd.name, s, some e⟩]

/-- ListenableNode.Execute: the inner function result together with the
emitted batch payloads. -/
def lnodeExecute (nd : LNode σ ε) (s : σ) : Except ε σ × List (Emitted σ ε) :=
  (nd.function s, lnodeEmit nd s)

/-- The per-listener deliveries of one Execute call: each emitted batch is
dispatched to the whole listener list and joined before the next batch. -/
def lnodeDeliveries (nd : LNode σ ε) (s : σ) : List (List (Delivery σ ε)) :=
  (lnodeEmit nd s).map (notifyListeners nd.listeners)

/-- ListenableMessageGraph with its compiled form ListenableRunnable,
listeners.go: listenable node map, edges, the conditional-edge map inherited
from the embedded MessageGraph, and the entry point. -/
structure LGraph (σ ε : Type) where
  nodes : String → Option (LNode σ ε)
  edges : List Edge
  conditionalEdges : String → Option (σ → String)
  entryPoint : String

/-- Errors returned by ListenableRunnable.Invoke, listeners.go lines 230-266:
the bare sentinels ErrNodeNotFound and ErrNoOutgoingEdge, or the node error
passed through unwrapped. -/
inductive LError (ε : Type) where
  | nodeNotFound
  | noOutgoingEdge
  | nodeError (cause : ε)
deriving DecidableEq

/-- ListenableRunnable.Invoke, listeners.go lines 230-266, with fuel: walks
from the current node executing listenable nodes and following only static
edges (the conditional-edge map is never consulted), accumulating the emitted
batch payloads. -/
def linvokeFrom (g : LGraph σ ε) : Nat → String → σ →
    Option ((Option σ × Option (LError ε)) × List (Emitted σ ε))
  | 0, _, _ => none
  | fuel + 1, cur, s =>
    if cur = END then some ((some s, none), [])
    else
      match g.nodes cur with
      | none => some ((none, some .nodeNotFound), [])
      | some nd =>
        match nd.function s with
        | .error e => some ((none, some (.nodeError e)), lnodeEmit nd s)
        | .ok s' =>
          match findFirstEdge g.edges cur with
          | none => some ((none, some .noOutgoingEdge), lnodeEmit nd s)
          | some nxt =>
            match linvokeFrom g fuel nxt s' with
            | none => none
            | some (r, evs) => some (r, lnodeEmit nd s ++ evs)

/-- ListenableRunnable.Invoke from the entry point. -/
def linvoke (g : LGraph σ ε) (fuel : Nat) (s : σ) :
    Option ((Option σ × Option (LError ε)) × List (Emitted σ ε)) :=
  linvokeFrom g fuel g.entryPoint s

/-- The base MessageGraph underlying a listenable graph: same node functions,
edges, conditional edges and entry point, listeners dropped. -/
def toBase (g : LGraph σ ε) : MessageGraph σ ε :=
  { nodes := fun n => (g.nodes n).map fun nd => ⟨nd.name, nd.function⟩
    edges := g.edges
    conditionalEdges := g.conditionalEdges
    entryPoint := g.entryPoint }

/-! ## Checkpointing

Checkpoint ids and timestamps are generated from the wall clock in the
source and carry no behavioural weight, so they are omitted from the model;
the metadata map reduces to the execution id it carries. -/

/-- Checkpoint record: node name, post-execution state, execution id from the
metadata map, and version, always one. -/
structure Checkpoint (σ : Type) where
  nodeName : String
  state : σ
  executionId : String
  version : Nat
deriving DecidableEq

/-- CheckpointListener.OnNodeEvent: a checkpoint is built only when AutoSave
is on, the event is the completion event and the error argument is nil;
otherwise nothing is saved. -/
def checkpointOnNodeEvent (autoSave : Bool) (execId : String)
    (em : Emitted σ ε) : Option (Checkpoint σ) :=
  if ¬ autoSave ∨ em.event ≠ .complete then none
  else if em.err.isSome then none
  else some ⟨em.nodeName, em.state, execId, 1⟩

/-- The checkpoints an event trace produces through the checkpoint
listener. -/
def runCheckpoints (autoSave : Bool) (execId : String)
    (ems : List (Emitted σ ε)) : List (Checkpoint σ) :=
  ems.filterMap (checkpointOnNodeEvent autoSave execId)

/-- CheckpointableRunnable.Invoke: the checkpoint listener is attached to
every node for the duration of one Invoke of the underlying listenable
runnable, so the run produces the checkpoints of its event trace. -/
def checkpointableInvoke (g : LGraph σ ε) (autoSave : Bool) (execId : String)
    (fuel : Nat) (s : σ) :
    Option ((Option σ × Option (LError ε)) × List (Checkpoint σ)) :=
  match linvoke g fuel s with
  | none => none
  | some (r, ems) => some (r, runCheckpoints autoSave execId ems)

/-! ## Streaming listener

The bounded event channel is modelled as its buffered contents plus its
capacity; a non-blocking send succeeds exactly when the buffer has room.
Event timestamps come from the wall clock in the source and are omitted. -/

/-- StreamingListener: channel capacity and buffer, the backpressure flag of
the stream config, the dropped-event counter and the closed flag. -/
structure StreamingListener (σ ε : Type) where
  capacity : Nat
  enableBackpressure : Bool
  chanBuf : List (Emitted σ ε)
  droppedEvents : Nat
  closed : Bool
deriving DecidableEq

/-- StreamingListener.OnNodeEvent: a closed listener ignores the event; the
non-blocking send buffers the event when there is room; on a full channel
the event is dropped, and the dropped-event counter increments only when
backpressure handling is enabled. -/
def slOnNodeEvent (sl : StreamingListener σ ε) (em : Emitted σ ε) :
    StreamingListener σ ε :=
  if sl.closed then sl
  else if sl.chanBuf.length < sl.capacity then { sl with chanBuf := sl.chanBuf ++ [em] }
  else if sl.enableBackpressure then { sl with droppedEvents := sl.droppedEvents + 1 }
  else sl

/-- The streaming listener state after receiving a whole event trace. -/
def streamCollect (sl : StreamingListener σ ε) (ems : List (Emitted σ ε)) :
    StreamingListener σ ε :=
  ems.foldl slOnNodeEvent sl

/-- StreamingRunnable.Stream: the streaming listener attached to every node
receives the event trace of one Invoke of the underlying listenable
runnable, whose outcome feeds the result or error channel. -/
def streamInvoke (g : LGraph σ ε) (sl : StreamingListener σ ε) (fuel : Nat)
    (s : σ) :
    Option ((Option σ × Option (LError ε)) × StreamingListener σ ε) :=
  match linvoke g fuel s with
  | none => none
  | some (r, ems) => some (r, streamCollect sl ems)

/-- C8: one Execute dispatches the start batch to every registered listener
and joins it before the inner function runs, then dispatches and joins
exactly one terminal batch, a complete batch carrying the result on success
or an error batch carrying the error on failure; every delivery completes
even for panicking listeners, and the execution result never depends on the
listener list, so a panicking listener cannot abort node execution. -/
theorem listener_dispatch_contract (nd : LNode σ ε) (s : σ) :
    lnodeDeliveries nd s =
      [notifyListeners nd.listeners ⟨.start, nd.name, s, none⟩,
       match nd.function s with
       | .ok r => notifyListeners nd.listeners ⟨.complete, nd.name, r, none⟩
       | .error e => notifyListeners nd.listeners ⟨.error, nd.name, s, some e⟩]
    ∧ (∀ batch ∈ lnodeDeliveries nd s, batch.length = nd.listeners.length)
    ∧ (lnodeExecute nd s).1 = nd.function s
    ∧ (∀ ls : List (Obs σ ε),
        (lnodeExecute ⟨nd.name, nd.function, ls⟩ s).1 = (lnodeExecute nd s).1) := by
  refine ⟨?_, ?_, rfl, fun ls => rfl⟩
  · cases hf : nd.function s with
    | ok r => simp [lnodeDeliveries, lnodeEmit, hf]
    | error e => simp [lnodeDeliveries, lnodeEmit, hf]
  · intro batch hb
    cases hf : nd.function s with
    | ok r =>
      simp only [lnodeDeliveries, lnodeEmit, hf, List.map_cons, List.map_nil,
        List.mem_cons, List.not_mem_nil, or_false] at hb
      rcases hb with h | h
      · simp [h, notifyListeners]
      · simp [h, notifyListeners]
    | error e =>
      simp only [lnodeDeliveries, lnodeEmit, hf, List.map_cons, List.map_nil,
        List.mem_cons, List.not_mem_nil, or_false] at hb
      rcases hb with h | h
      · simp [h, notifyListeners]
      · simp [h, notifyListeners]

/-- Witness fixture for C8: a well-behaved observer. -/
def obsOk : Obs Nat String := ⟨fun _ _ _ => some ()⟩

/-- Witness fixture for C8: an observer whose body panics on every event. -/
def obsPanic : Obs Nat String := ⟨fun _ _ _ => none⟩

/-- Witness fixture for C8: a node observed by one well-behaved and one
panicking listener. -/
def observedNode : LNode Nat String := ⟨"A", fun st => .ok (st + 1), [obsOk, obsPanic]⟩

/-- Witness for C8 at a concrete node: the start batch reaches both
listeners, panicking one included. -/
theorem listener_dispatch_contract_witness :
    (notifyListeners observedNode.listeners ⟨.start, "A", (5 : Nat), none⟩).length =
      observedNode.listeners.length :=
  (listener_dispatch_contract observedNode 5).2.1 _
    (by
      show _ ∈ [notifyListeners observedNode.listeners ⟨.start, "A", (5 : Nat), none⟩,
                notifyListeners observedNode.listeners ⟨.complete, "A", (6 : Nat), none⟩]
      exact List.mem_cons_self _ _)

/-- C9 (amended): while the streaming listener is not closed and the event
channel is full, an incoming event is dropped without blocking (the buffer is
unchanged), and the dropped-event counter increments exactly when
backpressure handling is enabled in the stream config, staying unchanged
otherwise. -/
theorem stream_full_channel_drops (sl : StreamingListener σ ε) (em : Emitted σ ε)
    (hopen : sl.closed = false) (hfull : ¬ sl.chanBuf.length < sl.capacity) :
    (slOnNodeEvent sl em).chanBuf = sl.chanBuf
    ∧ (slOnNodeEvent sl em).droppedEvents =
        (if sl.enableBackpressure then sl.droppedEvents + 1 else sl.droppedEvents) := by
  by_cases hbp : sl.enableBackpressure <;>
    constructor <;> simp [slOnNodeEvent, hopen, hfull, hbp]

/-- Counterexample fixture for C9: a full one-slot channel with backpressure
handling disabled. -/
def fullListenerNoBp : StreamingListener Nat String :=
  ⟨1, false, [⟨.start, "A", 0, none⟩], 0, false⟩

/-- C9 counterexample: on a full channel with backpressure handling disabled
the event is dropped but the dropped-event counter is not incremented,
refuting the claim as stated. -/
theorem stream_full_channel_counterexample :
    (slOnNodeEvent fullListenerNoBp ⟨.complete, "A", 1, none⟩).chanBuf =
      fullListenerNoBp.chanBuf
    ∧ ¬ (slOnNodeEvent fullListenerNoBp ⟨.complete, "A", 1, none⟩).droppedEvents =
        fullListenerNoBp.droppedEvents + 1 := by
  constructor <;> decide

/-- Witness fixture for C9: a full one-slot channel with backpressure
handling enabled. -/
def fullListenerBp : StreamingListener Nat String :=
  ⟨1, true, [⟨.start, "A", 0, none⟩], 0, false⟩

/-- Witness for C9 (amended) at a concrete full channel with backpressure
enabled. -/
theorem stream_full_channel_drops_witness :
    (slOnNodeEvent fullListenerBp ⟨.complete, "A", 1, none⟩).chanBuf =
      fullListenerBp.chanBuf
    ∧ (slOnNodeEvent fullListenerBp ⟨.complete, "A", 1, none⟩).droppedEvents =
        (if fullListenerBp.enableBackpressure then fullListenerBp.droppedEvents + 1
         else fullListenerBp.droppedEvents) :=
  stream_full_channel_drops fullListenerBp ⟨.complete, "A", 1, none⟩ rfl (by decide)

/-- C10: the listenable engine resolves next nodes from static edges only:
its result never depends on the conditional-edge map; when the current node
carries a conditional edge but no matching static edge it fails with the
no-outgoing-edge error (the condition function is never consulted), while on
the same graph the base engine follows the conditional edge; streaming and
checkpointable executions run through this same listenable traversal. -/
theorem listenable_invoke_static_only (g : LGraph σ ε) :
    (∀ (cond : String → Option (σ → String)) (fuel : Nat) (cur : String) (s : σ),
        linvokeFrom { g with conditionalEdges := cond } fuel cur s =
          linvokeFrom g fuel cur s)
    ∧ (∀ (fuel : Nat) (cur : String) (s s' : σ) (nd : LNode σ ε), cur ≠ END →
        g.nodes cur = some nd → nd.function s = .ok s' →
        (g.conditionalEdges cur).isSome →
        findFirstEdge g.edges cur = none →
        linvokeFrom g (fuel + 1) cur s =
          some ((none, some .noOutgoingEdge), lnodeEmit nd s))
    ∧ (∀ (fuel : Nat) (cur : String) (s s' : σ) (nd : LNode σ ε)
        (cond : σ → String), cur ≠ END →
        g.nodes cur = some nd → nd.function s = .ok s' →
        g.conditionalEdges cur = some cond → cond s' ≠ "" →
        invokeFrom (toBase g) (fuel + 1) cur s =
          invokeFrom (toBase g) fuel (cond s') s')
    ∧ (∀ (autoSave : Bool) (execId : String) (fuel : Nat) (s : σ),
        (checkpointableInvoke g autoSave execId fuel s).map Prod.fst =
          (linvoke g fuel s).map Prod.fst)
    ∧ (∀ (sl : StreamingListener σ ε) (fuel : Nat) (s : σ),
        (streamInvoke g sl fuel s).map Prod.fst =
          (linvoke g fuel s).map Prod.fst) := by
  refine ⟨?_, ?_, ?_, ?_, ?_⟩
  · intro cond fuel
    induction fuel with
    | zero => intro cur s; rfl
    | succ n ih =>
      intro cur s
      by_cases hend : cur = END
      · simp [linvokeFrom, hend]
      · simp only [linvokeFrom, if_neg hend]
        cases hnd : g.nodes cur with
        | none => simp [hnd]
        | some nd =>
          cases hfn : nd.function s with
          | error e => simp [hnd, hfn]
          | ok s' =>
            cases hed : findFirstEdge g.edges cur with
            | none => simp [hnd, hfn, hed]
            | some nxt => simp [hnd, hfn, hed, ih]
  · intro fuel cur s s' nd hend hnd hfn _ hed
    simp [linvokeFrom, hend, hnd, hfn, hed]
  · intro fuel cur s s' nd cond hend hnd hfn hcond hne
    simp [invokeFrom, toBase, hend, hnd, hfn, resolveNext, hcond, hne]
  · intro autoSave execId fuel s
    cases h : linvoke g fuel s with
    | none => simp [checkpointableInvoke, h]
    | some r => simp [checkpointableInvoke, h]
  · intro sl fuel s
    cases h : linvoke g fuel s with
    | none => simp [streamInvoke, h]
    | some r => simp [streamInvoke, h]

/-- Witness fixture for C10: node A with a conditional edge to END and no
static edge. -/
def condOnlyGraph : LGraph Nat String :=
  { nodes := fun n => if n = "A" then some ⟨"A", fun st => .ok (st + 1), []⟩ else none
    edges := []
    conditionalEdges := fun n => if n = "A" then some (fun _ => "END") else none
    entryPoint := "A" }

/-- Witness for C10 at a concrete graph: the listenable engine fails with the
no-outgoing-edge error on a node whose only outgoing edge is conditional,
while the base engine follows the conditional edge to END and succeeds. -/
theorem listenable_invoke_static_only_witness :
    linvokeFrom condOnlyGraph 1 "A" 0 =
      some ((none, some .noOutgoingEdge),
        [⟨.start, "A", 0, none⟩, ⟨.complete, "A", 1, none⟩])
    ∧ invokeFrom (toBase condOnlyGraph) 2 "A" 0 = some (some 1, none) :=
  ⟨(listenable_invoke_static_only condOnlyGraph).2.1 0 "A" 0 1
      ⟨"A", fun st => .ok (st + 1), []⟩ (by decide) rfl rfl rfl rfl,
   ((listenable_invoke_static_only condOnlyGraph).2.2.1 1 "A" 0 1
      ⟨"A", fun st => .ok (st + 1), []⟩ (fun _ => "END") (by decide) rfl rfl rfl
      (by decide)).trans rfl⟩

/-! ## Linear-graph fixture for the checkpointing claim -/

/-- Edges of a linear chain of node names, ending in END. -/
def chainEdges : List String → List Edge
  | [] => []
  | [a] => [⟨a, END⟩]
  | a :: b :: rest => ⟨a, b⟩ :: chainEdges (b :: rest)

/-- First node name of a chain description, END when empty. -/
def headName : List (String × (σ → Except ε σ)) → String
  | [] => END
  | p :: _ => p.1

/-- An N-node linear listenable graph: the named nodes wired in sequence,
the last one into END, entry point at the first node. -/
def mkChain (l : List (String × (σ → Except ε σ))) : LGraph σ ε :=
  { nodes := fun n => (l.find? fun p => p.1 == n).map fun p => ⟨p.1, p.2, []⟩
    edges := chainEdges (l.map Prod.fst)
    conditionalEdges := fun _ => none
    entryPoint := headName l }

/-- Specification-side description, following the C7 spec sentences, of the
checkpoints of one linear run: one checkpoint per successfully completed
node, holding that node's post-execution state and the execution id, and
nothing from a failing node onwards. -/
def specChainCheckpoints (execId : String) :
    List (String × (σ → Except ε σ)) → σ → List (Checkpoint σ)
  | [], _ => []
  | (n, f) :: rest, s =>
    match f s with
    | .ok s' => ⟨n, s', execId, 1⟩ :: specChainCheckpoints execId rest s'
    | .error _ => []

/-- The edge list wires a list of node names as a chain: each name's first
matching edge leads to the next name, the last one to END. -/
def ChainWired (es : List Edge) : List String → Prop
  | [] => True
  | [a] => findFirstEdge es a = some END
  | a :: b :: rest => findFirstEdge es a = some b ∧ ChainWired es (b :: rest)

/-- Prepending edges that do not leave the scanned node keeps the scan
result. -/
theorem findFirstEdge_append_no_match (es₁ es₂ : List Edge) (n : String)
    (h : ∀ e ∈ es₁, e.From ≠ n) :
    findFirstEdge (es₁ ++ es₂) n = findFirstEdge es₂ n := by
  induction es₁ with
  | nil => rfl
  | cons e rest ih =>
    have he : e.From ≠ n := h e (List.mem_cons_self _ _)
    simp only [List.cons_append, findFirstEdge, if_neg he]
    exact ih fun e' h' => h e' (List.mem_cons_of_mem _ h')

/-- The chain edges of a duplicate-free name list wire those names as a
chain, also under any prefix of edges leaving none of them. -/
theorem chainWired_of_nodup :
    ∀ (ns : List String) (es₁ : List Edge), ns.Nodup →
      (∀ e ∈ es₁, e.From ∉ ns) →
      ChainWired (es₁ ++ chainEdges ns) ns := by
  intro ns
  induction ns with
  | nil => intro es₁ _ _; trivial
  | cons a tl ih =>
    intro es₁ hnd hes
    cases tl with
    | nil =>
      show findFirstEdge (es₁ ++ chainEdges [a]) a = some END
      rw [findFirstEdge_append_no_match _ _ _
        (fun e he => by simpa using hes e he)]
      simp [chainEdges, findFirstEdge]
    | cons b tl' =>
      refine ⟨?_, ?_⟩
      · rw [show chainEdges (a :: b :: tl') = ⟨a, b⟩ :: chainEdges (b :: tl') from rfl,
          findFirstEdge_append_no_match _ _ _
            (fun e he hf => hes e he (hf ▸ List.mem_cons_self a _))]
        simp [findFirstEdge]
      · have hsplit : es₁ ++ chainEdges (a :: b :: tl') =
            (es₁ ++ [⟨a, b⟩]) ++ chainEdges (b :: tl') := by
          simp [chainEdges]
        rw [hsplit]
        refine ih (es₁ ++ [{ From := a, To := b }]) (List.nodup_cons.mp hnd).2 ?_
        intro e he
        rcases List.mem_append.mp he with h1 | h2
        · exact fun hm => hes e h1 (List.mem_cons_of_mem _ hm)
        · rw [List.mem_singleton] at h2
          subst h2
          simpa using (List.nodup_cons.mp hnd).1

/-- In a duplicate-free association list, the first-match scan finds exactly
the member with the sought key. -/
theorem mkChain_find (l : List (String × (σ → Except ε σ)))
    (hnd : (l.map Prod.fst).Nodup) (p : String × (σ → Except ε σ)) (hp : p ∈ l) :
    l.find? (fun q => q.1 == p.1) = some p := by
  induction l with
  | nil => simp at hp
  | cons q rest ih =>
    rw [List.map_cons, List.nodup_cons] at hnd
    rcases List.mem_cons.mp hp with rfl | hmem
    · simp [List.find?]
    · have hqp : (q.1 == p.1) = false := by
        rw [beq_eq_false_iff_ne]
        intro he
        exact hnd.1 (he ▸ List.mem_map_of_mem Prod.fst hmem)
      simp only [List.find?, hqp]
      exact ih hnd.2 hmem

/-- Node lookup in the chain graph resolves every listed node to itself with
an empty listener list. -/
theorem mkChain_lookup (l : List (String × (σ → Except ε σ)))
    (hnd : (l.map Prod.fst).Nodup) :
    ∀ p ∈ l, (mkChain l).nodes p.1 = some ⟨p.1, p.2, []⟩ := by
  intro p hp
  have h := mkChain_find l hnd p hp
  simp [mkChain, h]

/-- Splitting off the head of a chain wiring: the head's first matching edge
leads to the next name and the rest stays wired. -/
theorem chainWired_cons (es : List Edge) (n : String)
    (l : List (String × (σ → Except ε σ))) :
    ChainWired es (n :: l.map Prod.fst) →
    findFirstEdge es n = some (headName l) ∧ ChainWired es (l.map Prod.fst) := by
  cases l with
  | nil => intro h; exact ⟨h, trivial⟩
  | cons q rest => intro h; exact ⟨h.1, h.2⟩

/-- Checkpoint extraction distributes over trace concatenation. -/
theorem runCheckpoints_append (autoSave : Bool) (execId : String)
    (xs ys : List (Emitted σ ε)) :
    runCheckpoints autoSave execId (xs ++ ys) =
      runCheckpoints autoSave execId xs ++ runCheckpoints autoSave execId ys := by
  simp [runCheckpoints]

/-- Helper for C7: walking a wired chain whose nodes the graph resolves,
the listenable engine terminates within chain length plus one fuel, and the
checkpoint listener saves exactly the specification-side checkpoint list;
when every node function succeeds the run ends with a final state and nil
error. -/
theorem chain_walk (g : LGraph σ ε) (execId : String) :
    ∀ (l : List (String × (σ → Except ε σ))) (s : σ),
      (∀ p ∈ l, g.nodes p.1 = some ⟨p.1, p.2, []⟩) →
      (∀ p ∈ l, p.1 ≠ END) →
      ChainWired g.edges (l.map Prod.fst) →
      ∃ res ems, linvokeFrom g (l.length + 1) (headName l) s = some (res, ems)
        ∧ runCheckpoints true execId ems = specChainCheckpoints execId l s
        ∧ ((∀ p ∈ l, ∀ st, ∃ st', p.2 st = .ok st') →
            ∃ sfin, res = (some sfin, none)) := by
  intro l
  induction l with
  | nil =>
    intro s _ _ _
    refine ⟨(some s, none), [], ?_, rfl, fun _ => ⟨s, rfl⟩⟩
    simp [linvokeFrom, headName]
  | cons p rest ih =>
    obtain ⟨n, f⟩ := p
    intro s hlookup hnames hwired
    have hn : g.nodes n = some ⟨n, f, []⟩ := hlookup (n, f) (List.mem_cons_self _ _)
    have hne : n ≠ END := hnames (n, f) (List.mem_cons_self _ _)
    obtain ⟨hw1, hw2⟩ := chainWired_cons g.edges n rest (by simpa using hwired)
    cases hf : f s with
    | error e =>
      refine ⟨(none, some (.nodeError e)), lnodeEmit ⟨n, f, []⟩ s, ?_, ?_, ?_⟩
      · simp [linvokeFrom, headName, hne, hn, hf]
      · simp [runCheckpoints, lnodeEmit, hf, specChainCheckpoints, checkpointOnNodeEvent]
      · intro hsucc
        obtain ⟨st', h'⟩ := hsucc (n, f) (List.mem_cons_self _ _) s
        have h2 : f s = .ok st' := h'
        rw [hf] at h2
        simp at h2
    | ok s' =>
      obtain ⟨res, ems', hrun, hcp, hs⟩ := ih s'
        (fun q hq => hlookup q (List.mem_cons_of_mem _ hq))
        (fun q hq => hnames q (List.mem_cons_of_mem _ hq)) hw2
      refine ⟨res, lnodeEmit ⟨n, f, []⟩ s ++ ems', ?_, ?_, ?_⟩
      · have houter : headName (⟨n, f⟩ :: rest) = n := rfl
        rw [show ((⟨n, f⟩ :: rest : List (String × (σ → Except ε σ))).length + 1)
            = (rest.length + 1) + 1 from by simp, houter]
        rw [linvokeFrom]
        simp [hne, hn, hf, hw1, hrun]
      · rw [runCheckpoints_append, hcp]
        simp [runCheckpoints, lnodeEmit, hf, specChainCheckpoints, checkpointOnNodeEvent]
      · intro hsucc
        exact hs (fun q hq => hsucc q (List.mem_cons_of_mem _ hq))

/-- Under global success, the specification-side checkpoint list has one
entry per node. -/
theorem specChainCheckpoints_length (execId : String) :
    ∀ (l : List (String × (σ → Except ε σ))) (s : σ),
      (∀ p ∈ l, ∀ st, ∃ st', p.2 st = .ok st') →
      (specChainCheckpoints execId l s).length = l.length := by
  intro l
  induction l with
  | nil => intro s _; rfl
  | cons p rest ih =>
    obtain ⟨n, f⟩ := p
    intro s h
    obtain ⟨s', hs'⟩ := h (n, f) (List.mem_cons_self _ _) s
    have hs2 : f s = .ok s' := hs'
    simp only [specChainCheckpoints, hs2, List.length_cons]
    rw [ih s' (fun q hq => h q (List.mem_cons_of_mem _ hq))]

/-- C7: running an N-node linear graph with AutoSave on produces exactly the
specification-side checkpoints: one per successfully completed node, in
order, each holding that node's post-execution state and tagged with the
run's execution id; a failing node contributes no checkpoint and stops the
run; when every node succeeds there are exactly N checkpoints and the run
returns a final state with nil error. -/
theorem autosave_checkpoints_linear_run (l : List (String × (σ → Except ε σ)))
    (execId : String) (s : σ)
    (hnd : (l.map Prod.fst).Nodup) (hend : END ∉ l.map Prod.fst) :
    ∃ res cps,
      checkpointableInvoke (mkChain l) true execId (l.length + 1) s = some (res, cps)
      ∧ cps = specChainCheckpoints execId l s
      ∧ ((∀ p ∈ l, ∀ st, ∃ st', p.2 st = .ok st') →
          cps.length = l.length ∧ ∃ sfin, res = (some sfin, none)) := by
  have hwired : ChainWired (mkChain l).edges (l.map Prod.fst) := by
    have := chainWired_of_nodup (l.map Prod.fst) [] hnd (by simp)
    simpa [mkChain] using this
  obtain ⟨res, ems, hrun, hcp, hsucc⟩ := chain_walk (mkChain l) execId l s
    (mkChain_lookup l hnd)
    (fun p hp hne => hend (hne ▸ List.mem_map_of_mem Prod.fst hp)) hwired
  refine ⟨res, runCheckpoints true execId ems, ?_, hcp, ?_⟩
  · have hentry : (mkChain l).entryPoint = headName l := rfl
    simp only [checkpointableInvoke, linvoke, hentry, hrun]
  · intro h
    refine ⟨?_, hsucc h⟩
    rw [hcp, specChainCheckpoints_length execId l s h]

/-- Witness fixture for C7: a two-node linear chain of succeeding nodes. -/
def chainFixture : List (String × (Nat → Except String Nat)) :=
  [("A", fun st => .ok (st + 1)), ("B", fun st => .ok (st * 2))]

/-- Witness for C7 at a concrete two-node chain starting at state three. -/
theorem autosave_checkpoints_linear_run_witness :
    ∃ res cps,
      checkpointableInvoke (mkChain chainFixture) true "e1" (chainFixture.length + 1) 3 =
        some (res, cps)
      ∧ cps = specChainCheckpoints "e1" chainFixture 3
      ∧ ((∀ p ∈ chainFixture, ∀ st, ∃ st', p.2 st = .ok st') →
          cps.length = chainFixture.length ∧ ∃ sfin, res = (some sfin, none)) :=
  autosave_checkpoints_linear_run chainFixture "e1" 3 (by decide) (by decide)

end LangGraph
